import Mathlib

/-!
Verification of `Firestore/core/src/core/filter.cc` (firebase-ios-sdk).

The file under verification defines:
  - `operator==(const Filter&, const Filter&)`: null-safe equality on the
    `Filter` handle, delegating to the node-level `Rep::Equals`;
  - `operator<<(std::ostream&, const Filter&)`: stream output delegating to
    `Filter::ToString()`;
  - `Filter::Rep::ThreadSafeMemoizer`: a compute-once cache of the flattened
    leaf-filter list, built on `std::call_once` (`memoize` populates the
    cached `filters_` vector at most once; the destructor runs the same
    once-guard with a no-op callable to synchronize with an in-flight
    population before the storage is released).

The embedding below models the node type (`FieldFilter` / `Filter::Rep`)
abstractly as type parameters, since those classes live outside the file
under verification; the functions of filter.cc are translated directly.
Concurrency (`std::call_once`) is modelled as an interleaving small-step
transition system over the once-guard state machine
Unstarted -> Populating -> Done.
-/

namespace FirestoreCore

/-- The `Filter` handle: a copyable value wrapping a shared pointer
`rep_` to a polymorphic node; the pointer may be null (the empty filter).
The node type is abstract here (`Node`), as `Filter::Rep` subclasses live
outside filter.cc. -/
structure Filter (Node : Type) where
  rep_ : Option Node
deriving DecidableEq

/-- Translation of `operator==(const Filter& lhs, const Filter& rhs)` from
filter.cc:

    return lhs.rep_ == nullptr
               ? rhs.rep_ == nullptr
               : (rhs.rep_ != nullptr && lhs.rep_->Equals(*rhs.rep_));

The node-level virtual `Rep::Equals` is the abstract parameter
`nodeEquals`. -/
def filterEq {Node : Type} (nodeEquals : Node → Node → Bool)
    (lhs rhs : Filter Node) : Bool :=
  match lhs.rep_ with
  | none => rhs.rep_.isNone
  | some l =>
    match rhs.rep_ with
    | none => false
    | some r => nodeEquals l r

/-- Modelled from the spec: `Filter::ToString` is declared in filter.h,
which is not among the provided sources. Per the spec, `toString(f)`
"returns the empty filter's canonical empty representation, or delegates
to the node's `ToString`". The empty-case text and the node rendering are
abstract parameters. -/
def filterToString {Node : Type} (nodeToString : Node → String)
    (emptyRepr : String) (f : Filter Node) : String :=
  match f.rep_ with
  | none => emptyRepr
  | some n => nodeToString n

/-- Translation of `operator<<(std::ostream& os, const Filter& filter)` from
filter.cc: `return os << filter.ToString();`. A `std::ostream` that has
received some characters is modelled as the `String` of those characters;
streaming a string appends it. -/
def outputFilter {Node : Type} (nodeToString : Node → String)
    (emptyRepr : String) (os : String) (f : Filter Node) : String :=
  os ++ filterToString nodeToString emptyRepr f

/-- State of a `Filter::Rep::ThreadSafeMemoizer`: the `std::once_flag once_`
(true when a `std::call_once` on it has completed) and the cached vector
`filters_` of flattened leaf filters. The element type `α` stands for the
external `FieldFilter` class. -/
structure ThreadSafeMemoizer (α : Type) where
  once_ : Bool
  filters_ : List α
deriving DecidableEq

/-- A freshly constructed `ThreadSafeMemoizer`: the once-flag has not fired
and `filters_` is the default-constructed empty vector. -/
def ThreadSafeMemoizer.init (α : Type) : ThreadSafeMemoizer α :=
  ⟨false, []⟩

/-- Sequential behaviour of

    const std::vector<FieldFilter>& ThreadSafeMemoizer::memoize(
        std::function<void(std::vector<FieldFilter>&)> func) {
      std::call_once(once_, [&]() { func(filters_); });
      return filters_;
    }

`func` mutates the vector in place, modelled as a state transformer on
`List α`. The result triple is (new memoizer state, returned sequence,
whether `func` was invoked by this call). -/
def memoize {α : Type} (m : ThreadSafeMemoizer α)
    (func : List α → List α) : ThreadSafeMemoizer α × List α × Bool :=
  if m.once_ then
    (m, m.filters_, false)
  else
    let fs := func m.filters_
    (⟨true, fs⟩, fs, true)

/-- Folding any number of subsequent `memoize` calls over a memoizer,
keeping only the state. -/
def memoizeSeq {α : Type} (m : ThreadSafeMemoizer α)
    (funcs : List (List α → List α)) : ThreadSafeMemoizer α :=
  funcs.foldl (fun s f => (memoize s f).1) m

/-- Sequential behaviour of `memoize` when the compute function may fail
(exit by raising an error). Per the C++ standard, if the callable passed
to `std::call_once` exits via an exception, the exception is propagated to
the caller and the `once_flag` is NOT set, so a subsequent call runs its
callable. The result triple is (new memoizer state, outcome, whether
`func` was invoked by this call). -/
def memoizeExc {α ε : Type} (m : ThreadSafeMemoizer α)
    (func : List α → Except ε (List α)) :
    ThreadSafeMemoizer α × Except ε (List α) × Bool :=
  if m.once_ then
    (m, .ok m.filters_, false)
  else
    match func m.filters_ with
    | .ok fs => (⟨true, fs⟩, .ok fs, true)
    | .error e => (m, .error e, true)

/-- The state of the `std::once_flag` as seen by concurrent callers of
`std::call_once`: nobody has started the callable yet, the single winning
caller is executing it, or it has completed. -/
inductive OnceState
  | unstarted
  | populating
  | done
deriving DecidableEq

/-- Program counter of one thread executing
`memoize(func)`: about to enter `std::call_once` (a thread that arrives
while another is populating blocks here), executing `func(filters_)` as the
winner of the once-race, or returned holding the sequence it read. -/
inductive TState (α : Type)
  | start
  | running
  | finished (r : List α)
deriving DecidableEq

/-- Program counter of the destructor `~ThreadSafeMemoizer`, which executes
`std::call_once(once_, [&](){});`: not invoked, about to enter the
`call_once`, executing the no-op callable as the winner, or completed (at
which point the object's storage is released). -/
inductive DState
  | dnone
  | dstart
  | drunning
  | ddone
deriving DecidableEq

/-- Global state of the interleaving system: `n` threads each calling
`memoize` on one shared `ThreadSafeMemoizer`, plus (optionally) the
destructor. `guard` is the once-flag, `filters` the cached vector,
`runCount` counts completed executions of the compute function. -/
structure MemoSys (n : Nat) (α : Type) where
  guard : OnceState
  filters : List α
  runCount : Nat
  th : Fin n → TState α
  dpc : DState

/-- Initial system state: guard unstarted, the vector as constructed
(`fs0`, empty for a fresh memoizer), no compute run yet, every thread about
to call `memoize`, destructor at `d0` (`dnone` when it is never invoked,
`dstart` when it races with the `memoize` calls). -/
def MemoSys.mk0 (n : Nat) (α : Type) (fs0 : List α) (d0 : DState) :
    MemoSys n α :=
  ⟨.unstarted, fs0, 0, fun _ => .start, d0⟩

/-- One interleaved step of the system, following the semantics of
`std::call_once` (cppreference/C++ standard): exactly one caller wins the
unstarted guard and becomes the active execution; callers that arrive
while the guard is held block (no step is possible for them); when the
active callable returns, the guard becomes `done` and every subsequent
caller returns without executing its callable. The threads run
`memoize(func)` (so the winner executes `func(filters_)` and every caller
returns `filters_`); the destructor runs `call_once` with the no-op
callable `[&](){}`. -/
inductive MemoStep {n : Nat} {α : Type} (func : List α → List α) :
    MemoSys n α → MemoSys n α → Prop
  | win (s : MemoSys n α) (i : Fin n)
      (hpc : s.th i = .start) (hg : s.guard = .unstarted) :
      MemoStep func s
        { s with guard := .populating,
                 th := Function.update s.th i .running }
  | run (s : MemoSys n α) (i : Fin n)
      (hpc : s.th i = .running) :
      MemoStep func s
        { s with guard := .done,
                 filters := func s.filters,
                 runCount := s.runCount + 1,
                 th := Function.update s.th i (.finished (func s.filters)) }
  | read (s : MemoSys n α) (i : Fin n)
      (hpc : s.th i = .start) (hg : s.guard = .done) :
      MemoStep func s
        { s with th := Function.update s.th i (.finished s.filters) }
  | dwin (s : MemoSys n α)
      (hpc : s.dpc = .dstart) (hg : s.guard = .unstarted) :
      MemoStep func s
        { s with guard := .populating, dpc := .drunning }
  | drun (s : MemoSys n α)
      (hpc : s.dpc = .drunning) :
      MemoStep func s
        { s with guard := .done, dpc := .ddone }
  | dread (s : MemoSys n α)
      (hpc : s.dpc = .dstart) (hg : s.guard = .done) :
      MemoStep func s
        { s with dpc := .ddone }

/-- Reachability: any finite interleaving of steps. -/
def MemoReach {n : Nat} {α : Type} (func : List α → List α)
    (s t : MemoSys n α) : Prop :=
  Relation.ReflTransGen (MemoStep func) s t

/-- The inductive invariant of the once-guard system (relative to the
compute function `func` and the initial vector contents `fs0`). -/
structure MemoInv {n : Nat} {α : Type} (func : List α → List α)
    (fs0 : List α) (s : MemoSys n α) : Prop where
  uniqueRun : ∀ i j, s.th i = .running → s.th j = .running → i = j
  runNotD : ∀ i, s.th i = .running → s.dpc ≠ .drunning
  runPop : ∀ i, s.th i = .running → s.guard = .populating
  dPop : s.dpc = .drunning → s.guard = .populating
  unstartedClean : s.guard = .unstarted →
    (∀ i, s.th i = .start) ∧ s.runCount = 0 ∧ s.filters = fs0 ∧
      s.dpc ≠ .drunning ∧ s.dpc ≠ .ddone
  populatingClean : s.guard = .populating →
    s.runCount = 0 ∧ s.filters = fs0 ∧
      (∀ i r, s.th i ≠ .finished r) ∧ s.dpc ≠ .ddone
  doneNoRun : s.guard = .done →
    (∀ i, s.th i ≠ .running) ∧ s.dpc ≠ .drunning
  ddoneDone : s.dpc = .ddone → s.guard = .done
  finishedDone : ∀ i r, s.th i = .finished r →
    s.guard = .done ∧ r = s.filters
  doneCount : s.guard = .done →
    (s.runCount = 1 ∧ s.filters = func fs0) ∨
      (s.runCount = 0 ∧ s.filters = fs0)
  dnoneCount : s.dpc = .dnone → s.guard = .done →
    s.runCount = 1 ∧ s.filters = func fs0

/-- A compute function that fails on the empty vector, used as a concrete
instance of a population routine that exits by raising an error. -/
def failingCompute : List Nat → Except Unit (List Nat) :=
  fun _ => .error ()

/-- A compute function that succeeds with the one-element sequence `[7]`. -/
def laterCompute : List Nat → Except Unit (List Nat) :=
  fun _ => .ok [7]

/-- A concrete population routine: append the leaf `7`. -/
def wfunc : List Nat → List Nat :=
  fun l => l ++ [7]

/-- Concrete one-thread system, destructor never invoked: initial state. -/
def w1s0 : MemoSys 1 Nat :=
  MemoSys.mk0 1 Nat [] .dnone

/-- Concrete system after the thread wins the once-race. -/
def w1s1 : MemoSys 1 Nat :=
  { w1s0 with guard := .populating, th := Function.update w1s0.th 0 .running }

/-- Concrete system after the winning thread completes the population. -/
def w1s2 : MemoSys 1 Nat :=
  { w1s1 with
    guard := .done
    filters := wfunc w1s1.filters
    runCount := w1s1.runCount + 1
    th := Function.update w1s1.th 0 (.finished (wfunc w1s1.filters)) }

/-- Concrete one-thread system racing with the destructor: initial state. -/
def w5s0 : MemoSys 1 Nat :=
  MemoSys.mk0 1 Nat [] .dstart

/-- Concrete system after the destructor wins the once-race. -/
def w5s1 : MemoSys 1 Nat :=
  { w5s0 with guard := .populating, dpc := .drunning }

/-- Concrete system after the destructor completes the no-op callable. -/
def w5s2 : MemoSys 1 Nat :=
  { w5s1 with guard := .done, dpc := .ddone }

theorem update_eq_cases {n : Nat} {α : Type} (th : Fin n → TState α)
    (i j : Fin n) (v w : TState α)
    (h : Function.update th i v j = w) :
    (j = i ∧ v = w) ∨ (j ≠ i ∧ th j = w) := by
  rcases eq_or_ne j i with rfl | hne
  · left
    exact ⟨rfl, by simpa using h⟩
  · right
    exact ⟨hne, by rwa [Function.update_noteq hne] at h⟩

theorem memoInv_init {n : Nat} {α : Type} (func : List α → List α)
    (fs0 : List α) (d0 : DState)
    (hd1 : d0 ≠ .drunning) (hd2 : d0 ≠ .ddone) :
    MemoInv func fs0 (MemoSys.mk0 n α fs0 d0) := by
  refine ⟨?_, ?_, ?_, ?_, ?_, ?_, ?_, ?_, ?_, ?_, ?_⟩ <;>
    simp [MemoSys.mk0] <;> simp_all [MemoSys.mk0]

theorem memoInv_step {n : Nat} {α : Type} {func : List α → List α}
    {fs0 : List α} {s t : MemoSys n α}
    (h : MemoInv func fs0 s) (hst : MemoStep func s t) :
    MemoInv func fs0 t := by
  cases hst with
  | win i hpc hg =>
    obtain ⟨hall, hc0, hf0, hdr, hdd⟩ := h.unstartedClean hg
    refine ⟨?_, ?_, ?_, ?_, ?_, ?_, ?_, ?_, ?_, ?_, ?_⟩
    · intro j k hj hk
      rcases update_eq_cases _ _ _ _ _ hj with ⟨rfl, _⟩ | ⟨_, hj'⟩
      · rcases update_eq_cases _ _ _ _ _ hk with ⟨rfl, _⟩ | ⟨_, hk'⟩
        · rfl
        · exact absurd (hall k) (by simp [hk'])
      · exact absurd (hall j) (by simp [hj'])
    · intro j hj
      exact hdr
    · intro j hj
      rfl
    · intro _
      rfl
    · intro hcontra
      exact absurd hcontra (by simp)
    · intro _
      refine ⟨hc0, hf0, ?_, hdd⟩
      intro j r hj
      rcases update_eq_cases _ _ _ _ _ hj with ⟨rfl, hv⟩ | ⟨_, hj'⟩
      · exact absurd hv (by simp)
      · exact absurd (hall j) (by simp [hj'])
    · intro hcontra
      exact absurd hcontra (by simp)
    · intro hcontra
      exact absurd (h.ddoneDone hcontra) (by simp [hg])
    · intro j r hj
      rcases update_eq_cases _ _ _ _ _ hj with ⟨rfl, hv⟩ | ⟨_, hj'⟩
      · exact absurd hv (by simp)
      · exact absurd (hall j) (by simp [hj'])
    · intro hcontra
      exact absurd hcontra (by simp)
    · intro _ hcontra
      exact absurd hcontra (by simp)
  | run i hpc =>
    have hgpop := h.runPop i hpc
    obtain ⟨hc0, hf0, hnf, hdd⟩ := h.populatingClean hgpop
    have hdr := h.runNotD i hpc
    have hnorun : ∀ j, Function.update s.th i
        (TState.finished (func s.filters)) j ≠ .running := by
      intro j hj
      rcases update_eq_cases _ _ _ _ _ hj with ⟨rfl, hv⟩ | ⟨hne, hj'⟩
      · exact absurd hv (by simp)
      · exact hne (h.uniqueRun j i hj' hpc)
    refine ⟨?_, ?_, ?_, ?_, ?_, ?_, ?_, ?_, ?_, ?_, ?_⟩
    · intro j k hj _
      exact absurd hj (hnorun j)
    · intro j hj
      exact absurd hj (hnorun j)
    · intro j hj
      exact absurd hj (hnorun j)
    · intro hcontra
      exact absurd hcontra hdr
    · intro hcontra
      exact absurd hcontra (by simp)
    · intro hcontra
      exact absurd hcontra (by simp)
    · intro _
      exact ⟨hnorun, hdr⟩
    · intro _
      rfl
    · intro j r hj
      rcases update_eq_cases _ _ _ _ _ hj with ⟨rfl, hv⟩ | ⟨_, hj'⟩
      · refine ⟨rfl, ?_⟩
        cases hv
        rfl
      · exact absurd hj' (hnf j r)
    · intro _
      left
      exact ⟨by rw [hc0], by rw [hf0]⟩
    · intro _ _
      exact ⟨by rw [hc0], by rw [hf0]⟩
  | read i hpc hg =>
    obtain ⟨hnr, hdr⟩ := h.doneNoRun hg
    have hnorun : ∀ j, Function.update s.th i
        (TState.finished s.filters) j ≠ .running := by
      intro j hj
      rcases update_eq_cases _ _ _ _ _ hj with ⟨rfl, hv⟩ | ⟨_, hj'⟩
      · exact absurd hv (by simp)
      · exact hnr j hj'
    refine ⟨?_, ?_, ?_, ?_, ?_, ?_, ?_, ?_, ?_, ?_, ?_⟩
    · intro j k hj _
      exact absurd hj (hnorun j)
    · intro j hj
      exact absurd hj (hnorun j)
    · intro j hj
      exact absurd hj (hnorun j)
    · intro hcontra
      exact absurd hcontra hdr
    · intro hcontra
      exact OnceState.noConfusion (hg.symm.trans hcontra)
    · intro hcontra
      exact OnceState.noConfusion (hg.symm.trans hcontra)
    · intro _
      exact ⟨hnorun, hdr⟩
    · intro _
      exact hg
    · intro j r hj
      rcases update_eq_cases _ _ _ _ _ hj with ⟨rfl, hv⟩ | ⟨_, hj'⟩
      · refine ⟨hg, ?_⟩
        cases hv
        rfl
      · exact h.finishedDone j r hj'
    · intro _
      exact h.doneCount hg
    · intro hd _
      exact h.dnoneCount hd hg
  | dwin hpc hg =>
    obtain ⟨hall, hc0, hf0, _, _⟩ := h.unstartedClean hg
    refine ⟨?_, ?_, ?_, ?_, ?_, ?_, ?_, ?_, ?_, ?_, ?_⟩
    · intro j k hj _
      exact TState.noConfusion ((hall j).symm.trans hj)
    · intro j hj
      exact TState.noConfusion ((hall j).symm.trans hj)
    · intro j hj
      rfl
    · intro _
      rfl
    · intro hcontra
      exact absurd hcontra (by simp)
    · intro _
      refine ⟨hc0, hf0, ?_, by simp⟩
      intro j r hj
      exact TState.noConfusion ((hall j).symm.trans hj)
    · intro hcontra
      exact absurd hcontra (by simp)
    · intro hcontra
      exact absurd hcontra (by simp)
    · intro j r hj
      exact TState.noConfusion ((hall j).symm.trans hj)
    · intro hcontra
      exact absurd hcontra (by simp)
    · intro hcontra
      exact absurd hcontra (by simp)
  | drun hpc =>
    have hgpop := h.dPop hpc
    obtain ⟨hc0, hf0, hnf, _⟩ := h.populatingClean hgpop
    have hnorun : ∀ j, s.th j ≠ .running := by
      intro j hj
      exact h.runNotD j hj hpc
    refine ⟨?_, ?_, ?_, ?_, ?_, ?_, ?_, ?_, ?_, ?_, ?_⟩
    · intro j k hj _
      exact absurd hj (hnorun j)
    · intro j hj
      exact absurd hj (hnorun j)
    · intro j hj
      exact absurd hj (hnorun j)
    · intro hcontra
      exact absurd hcontra (by simp)
    · intro hcontra
      exact absurd hcontra (by simp)
    · intro hcontra
      exact absurd hcontra (by simp)
    · intro _
      exact ⟨hnorun, by simp⟩
    · intro _
      rfl
    · intro j r hj
      exact absurd hj (hnf j r)
    · intro _
      right
      exact ⟨hc0, hf0⟩
    · intro hcontra _
      exact absurd hcontra (by simp)
  | dread hpc hg =>
    obtain ⟨hnr, _⟩ := h.doneNoRun hg
    refine ⟨?_, ?_, ?_, ?_, ?_, ?_, ?_, ?_, ?_, ?_, ?_⟩
    · intro j k hj _
      exact absurd hj (hnr j)
    · intro j hj
      exact absurd hj (hnr j)
    · intro j hj
      exact absurd hj (hnr j)
    · intro hcontra
      exact absurd hcontra (by simp)
    · intro hcontra
      exact OnceState.noConfusion (hg.symm.trans hcontra)
    · intro hcontra
      exact OnceState.noConfusion (hg.symm.trans hcontra)
    · intro _
      exact ⟨hnr, by simp⟩
    · intro _
      exact hg
    · intro j r hj
      exact h.finishedDone j r hj
    · intro _
      exact h.doneCount hg
    · intro hcontra _
      exact absurd hcontra (by simp)

theorem memoInv_reach {n : Nat} {α : Type} {func : List α → List α}
    {fs0 : List α} {s t : MemoSys n α}
    (h : MemoInv func fs0 s) (hr : MemoReach func s t) :
    MemoInv func fs0 t := by
  induction hr with
  | refl => exact h
  | tail _ hstep ih => exact memoInv_step ih hstep

theorem dpc_dnone_stable {n : Nat} {α : Type} {func : List α → List α}
    {s t : MemoSys n α} (hr : MemoReach func s t) (h : s.dpc = .dnone) :
    t.dpc = .dnone := by
  induction hr with
  | refl => exact h
  | tail _ hstep ih =>
    cases hstep <;> simp_all

/-- Claim C3: `operator==` on filters returns true iff both are the empty
filter (absent node reference), or both are non-empty and the node-level
`Equals` of the left node applied to the right node returns true; in
particular the empty filter equals only the empty filter. -/
theorem filterEq_iff {Node : Type} (nodeEquals : Node → Node → Bool)
    (a b : Filter Node) :
    (filterEq nodeEquals a b = true ↔
      (a.rep_ = none ∧ b.rep_ = none) ∨
        ∃ x y, a.rep_ = some x ∧ b.rep_ = some y ∧ nodeEquals x y = true) ∧
    (filterEq nodeEquals ⟨none⟩ b = true ↔ b.rep_ = none) := by
  obtain ⟨ar⟩ := a
  obtain ⟨br⟩ := b
  constructor
  · cases ar <;> cases br <;> simp [filterEq]
  · cases br <;> simp [filterEq]

/-- Claim C9: filter equality is total and null-safe: an absent node reference
is never dereferenced, and when exactly one operand is empty the result is
false, independently of the node-level `Equals` function (it is not
consulted). -/
theorem filterEq_null_safe {Node : Type}
    (nodeEquals nodeEquals' : Node → Node → Bool) (x : Node) :
    filterEq nodeEquals ⟨none⟩ ⟨some x⟩ = false ∧
    filterEq nodeEquals ⟨some x⟩ ⟨none⟩ = false ∧
    filterEq nodeEquals ⟨none⟩ ⟨some x⟩ =
      filterEq nodeEquals' ⟨none⟩ ⟨some x⟩ ∧
    filterEq nodeEquals ⟨some x⟩ ⟨none⟩ =
      filterEq nodeEquals' ⟨some x⟩ ⟨none⟩ := by
  refine ⟨rfl, rfl, rfl, rfl⟩

/-- Claim C6: if the node-level `Equals` relation is reflexive and symmetric,
then filter equality is reflexive and symmetric. -/
theorem filterEq_refl_symm {Node : Type} (nodeEquals : Node → Node → Bool)
    (hrefl : ∀ x, nodeEquals x x = true)
    (hsym : ∀ x y, nodeEquals x y = nodeEquals y x)
    (f g : Filter Node) :
    filterEq nodeEquals f f = true ∧
    filterEq nodeEquals f g = filterEq nodeEquals g f := by
  obtain ⟨fr⟩ := f
  obtain ⟨gr⟩ := g
  cases fr <;> cases gr <;> simp [filterEq, hrefl]
  exact hsym _ _

/-- Witness for claim C6 with boolean nodes and boolean equality. -/
theorem filterEq_refl_symm_witness :
    filterEq (fun x y : Bool => x == y) ⟨some true⟩ ⟨some true⟩ = true ∧
    filterEq (fun x y : Bool => x == y) ⟨some true⟩ ⟨none⟩ =
      filterEq (fun x y : Bool => x == y) ⟨none⟩ ⟨some true⟩ :=
  filterEq_refl_symm (fun x y : Bool => x == y) (by decide) (by decide)
    ⟨some true⟩ ⟨none⟩

/-- Claim C8: writing a filter to an output stream appends exactly the
filter's ToString text and nothing else — the canonical empty representation
for the empty filter, the node's ToString rendering otherwise. -/
theorem outputFilter_appends_toString {Node : Type}
    (nodeToString : Node → String) (emptyRepr : String) (os : String)
    (f : Filter Node) (x : Node) :
    outputFilter nodeToString emptyRepr os f =
      os ++ filterToString nodeToString emptyRepr f ∧
    outputFilter nodeToString emptyRepr os ⟨none⟩ = os ++ emptyRepr ∧
    outputFilter nodeToString emptyRepr os ⟨some x⟩ = os ++ nodeToString x :=
  ⟨rfl, rfl, rfl⟩

/-- Claim C2: on a freshly constructed memoizer, two sequential memoize calls
with compute function `f` invoke `f` exactly once — on the first call — and
both calls return identical contents. -/
theorem memoize_twice {α : Type} (f : List α → List α) :
    (memoize (ThreadSafeMemoizer.init α) f).2.2 = true ∧
    (memoize (memoize (ThreadSafeMemoizer.init α) f).1 f).2.2 = false ∧
    (memoize (memoize (ThreadSafeMemoizer.init α) f).1 f).2.1 =
      (memoize (ThreadSafeMemoizer.init α) f).2.1 := by
  simp [memoize, ThreadSafeMemoizer.init]

/-- Claim C4: once the cache has been populated by a first completed memoize
call, it never changes: a later memoize call with any compute function `g`
does not invoke `g` and returns the originally populated contents, and any
sequence of later calls leaves the memoizer state unchanged. -/
theorem memoize_immutable_after_population {α : Type}
    (f g : List α → List α) (gs : List (List α → List α)) :
    memoize (memoize (ThreadSafeMemoizer.init α) f).1 g =
      ((memoize (ThreadSafeMemoizer.init α) f).1,
        (memoize (ThreadSafeMemoizer.init α) f).2.1, false) ∧
    memoizeSeq (memoize (ThreadSafeMemoizer.init α) f).1 gs =
      (memoize (ThreadSafeMemoizer.init α) f).1 := by
  constructor
  · simp [memoize, ThreadSafeMemoizer.init]
  · induction gs with
    | nil => rfl
    | cons g' gs' ih =>
      simpa [memoizeSeq, memoize, ThreadSafeMemoizer.init] using ih

/-- Claim C10: a population that appends nothing is cached like any other
result: when the first compute function leaves the sequence empty, the first
call returns the empty sequence, the once-flag is set, and every later call
returns the empty sequence without running its compute function. -/
theorem memoize_empty_population {α : Type}
    (f : List α → List α) (hf : f [] = []) (g : List α → List α) :
    (memoize (ThreadSafeMemoizer.init α) f).2.1 = [] ∧
    (memoize (ThreadSafeMemoizer.init α) f).1.once_ = true ∧
    memoize (memoize (ThreadSafeMemoizer.init α) f).1 g =
      ((memoize (ThreadSafeMemoizer.init α) f).1, [], false) := by
  simp [memoize, ThreadSafeMemoizer.init, hf]

/-- Witness for claim C10 with the identity compute function. -/
theorem memoize_empty_population_witness :
    (memoize (ThreadSafeMemoizer.init Nat) id).2.1 = [] ∧
    (memoize (ThreadSafeMemoizer.init Nat) id).1.once_ = true ∧
    memoize (memoize (ThreadSafeMemoizer.init Nat) id).1 (fun _ => [5]) =
      ((memoize (ThreadSafeMemoizer.init Nat) id).1, [], false) :=
  memoize_empty_population id rfl (fun _ => [5])

/-- Claim C7 is false on the code: with a compute function that fails, the
once-guard of `std::call_once` does NOT mark completion — after the failed
call the flag is still unset, and a subsequent memoize call runs its compute
function, i.e. a second population run is triggered. -/
theorem memoize_failure_cex :
    (memoizeExc (ThreadSafeMemoizer.init Nat) failingCompute).1.once_ =
      false ∧
    (memoizeExc (memoizeExc (ThreadSafeMemoizer.init Nat) failingCompute).1
        laterCompute).2.2 = true :=
  ⟨rfl, rfl⟩

/-- Claim C7 (amended): if the compute function passed to memoize fails, the
once-guard does not mark completion: the failure is propagated, the memoizer
state is unchanged, and a subsequent memoize call with a succeeding compute
function executes it — a second population run — and populates the cache; no
call deadlocks (every call returns). -/
theorem memoize_failure_reruns {α ε : Type}
    (f : List α → Except ε (List α)) (e : ε) (hf : f [] = .error e)
    (g : List α → Except ε (List α)) (gs : List α) (hg : g [] = .ok gs) :
    memoizeExc (ThreadSafeMemoizer.init α) f =
      (ThreadSafeMemoizer.init α, .error e, true) ∧
    memoizeExc (memoizeExc (ThreadSafeMemoizer.init α) f).1 g =
      (⟨true, gs⟩, .ok gs, true) := by
  simp [memoizeExc, ThreadSafeMemoizer.init, hf, hg]

/-- Witness for the amended claim C7 at concrete compute functions. -/
theorem memoize_failure_reruns_witness :
    memoizeExc (ThreadSafeMemoizer.init Nat) failingCompute =
      (ThreadSafeMemoizer.init Nat, .error (), true) ∧
    memoizeExc (memoizeExc (ThreadSafeMemoizer.init Nat) failingCompute).1
        laterCompute = (⟨true, [7]⟩, .ok [7], true) :=
  memoize_failure_reruns failingCompute () rfl laterCompute [7] rfl

/-- Claim C1: in every interleaving of `n ≥ 1` threads concurrently calling
memoize with compute function `func` on a freshly constructed memoizer (and
no destructor in the race), once every thread has returned, the compute
function has executed exactly once and every thread holds the identical
final sequence `func []`. -/
theorem memoize_concurrent_exactly_once {n : Nat} {α : Type}
    (func : List α → List α) (hn : 0 < n) (s : MemoSys n α)
    (hreach : MemoReach func (MemoSys.mk0 n α [] .dnone) s)
    (hfin : ∀ i, ∃ r, s.th i = TState.finished r) :
    s.runCount = 1 ∧ s.filters = func [] ∧
      ∀ i, s.th i = TState.finished (func []) := by
  have hinv := memoInv_reach
    (memoInv_init func [] .dnone (by simp) (by simp)) hreach
  have hdn : s.dpc = .dnone := dpc_dnone_stable hreach rfl
  obtain ⟨r0, hr0⟩ := hfin ⟨0, hn⟩
  have hdone := (hinv.finishedDone _ r0 hr0).1
  obtain ⟨hcount, hfil⟩ := hinv.dnoneCount hdn hdone
  refine ⟨hcount, hfil, ?_⟩
  intro i
  obtain ⟨r, hr⟩ := hfin i
  have hfd := hinv.finishedDone i r hr
  rw [hr, hfd.2, hfil]

/-- Witness for claim C1 at a concrete one-thread interleaving. -/
theorem memoize_concurrent_exactly_once_witness :
    w1s2.runCount = 1 ∧ w1s2.filters = wfunc [] ∧
      ∀ i, w1s2.th i = TState.finished (wfunc []) :=
  memoize_concurrent_exactly_once wfunc Nat.one_pos w1s2
    (Relation.ReflTransGen.tail
      (Relation.ReflTransGen.single (MemoStep.win w1s0 0 rfl rfl))
      (MemoStep.run w1s1 0 (by simp [w1s1, w1s0, MemoSys.mk0])))
    (fun i => ⟨wfunc [], by fin_cases i; decide⟩)

/-- Claim C5: the destructor performs the same once-guard synchronization as
population, with a no-op action: in every interleaving of memoize-calling
threads with the destructor, once the destructor has completed (the point at
which the cache storage is released), the guard is in its terminal completed
state, no population run is still executing, and the compute function has run
at most once. -/
theorem destructor_synchronizes {n : Nat} {α : Type}
    (func : List α → List α) (s : MemoSys n α)
    (hreach : MemoReach func (MemoSys.mk0 n α [] .dstart) s)
    (hd : s.dpc = .ddone) :
    s.guard = .done ∧ (∀ i, s.th i ≠ .running) ∧ s.runCount ≤ 1 := by
  have hinv := memoInv_reach
    (memoInv_init func [] .dstart (by simp) (by simp)) hreach
  have hdone := hinv.ddoneDone hd
  obtain ⟨hnr, _⟩ := hinv.doneNoRun hdone
  refine ⟨hdone, hnr, ?_⟩
  rcases hinv.doneCount hdone with ⟨h1, _⟩ | ⟨h0, _⟩
  · exact h1 ▸ Nat.le_refl 1
  · exact h0 ▸ Nat.zero_le 1

/-- Witness for claim C5 at a concrete interleaving in which the destructor
itself wins the once-race. -/
theorem destructor_synchronizes_witness :
    w5s2.guard = .done ∧ (∀ i, w5s2.th i ≠ .running) ∧ w5s2.runCount ≤ 1 :=
  destructor_synchronizes wfunc w5s2
    (Relation.ReflTransGen.tail
      (Relation.ReflTransGen.single (MemoStep.dwin w5s0 rfl rfl))
      (MemoStep.drun w5s1 rfl))
    rfl

end FirestoreCore
